import Mathlib

set_option maxRecDepth 4000

/-!
Verification development for the MineralChainFHE contract.

This file gives a shallow embedding of the Solidity contract
MineralChainFHE (the supply-chain disclosure ledger with asynchronous
FHE decryption callbacks) and proves the spec-level properties about it.

Modelling choices:
- An encrypted 32-bit value (euint32) is modelled as an idealized
  ciphertext: an optional plaintext, where the uninitialized handle 0 is
  the empty option. Homomorphic addition acts on the idealized plaintexts
  modulo 2^32.
- Solidity mappings become total functions with the zero-value default,
  exactly as Solidity mappings behave.
- keccak256 over the packed string is an external primitive; the
  embedding is parametric in a fingerprint function hashFn over strings.
- The oracle request id is an input parameter of the requesting
  operations (it is produced by the external FHE gateway), and the
  outcome of the authenticity check FHE.checkSignatures is an input
  parameter proofOk of the callback operations.
- Each externally callable operation either returns the next state or a
  revert error; transaction semantics (a revert leaves the state
  untouched) are captured by the runner runC / stepOk.
-/

/-! Definitions: the shallow embedding of the contract state and of its operations. -/

/-- An idealized euint32 ciphertext handle: none is the uninitialized
handle, some v is a ciphertext whose plaintext is v. -/
abbrev EUint32 := Option Nat

namespace FHE

/-- FHE.isInitialized on a handle: the zero handle is uninitialized. -/
def isInit (h : EUint32) : Bool := h.isSome

/-- FHE.asEuint32: a trivial encryption of a plaintext constant. -/
def asEuint32 (n : Nat) : EUint32 := some (n % 2 ^ 32)

/-- FHE.add: homomorphic addition of two euint32 ciphertexts,
wrapping modulo 2^32 like the plaintext type uint32. -/
def add (a b : EUint32) : EUint32 := some ((a.getD 0 + b.getD 0) % 2 ^ 32)

end FHE

/-- struct EncryptedSupplyData of the contract. -/
structure EncryptedSupplyData where
  id : Nat
  encryptedMineralType : EUint32
  encryptedQuantity : EUint32
  encryptedOrigin : EUint32
  timestamp : Nat
deriving DecidableEq

/-- struct DecryptedSupplyData of the contract. -/
structure DecryptedSupplyData where
  mineralType : String
  quantity : Nat
  origin : String
  isAnalyzed : Bool
deriving DecidableEq

/-- The zero value of DecryptedSupplyData: the default of the Solidity
mapping, and also the placeholder written by submitEncryptedSupplyData. -/
def emptyDecrypted : DecryptedSupplyData :=
  { mineralType := "", quantity := 0, origin := "", isAnalyzed := false }

/-- The zero value of EncryptedSupplyData (mapping default). -/
def zeroEncrypted : EncryptedSupplyData :=
  { id := 0, encryptedMineralType := none, encryptedQuantity := none,
    encryptedOrigin := none, timestamp := 0 }

/-- The storage of the MineralChainFHE contract. -/
structure ContractState where
  dataCount : Nat
  encryptedSupplyData : Nat → EncryptedSupplyData
  decryptedSupplyData : Nat → DecryptedSupplyData
  encryptedMineralStats : String → EUint32
  mineralTypeList : List String
  requestToDataId : Nat → Nat

/-- The state of a freshly deployed contract: every mapping holds its
zero value and the catalog is empty. -/
def initState : ContractState :=
  { dataCount := 0
    encryptedSupplyData := fun _ => zeroEncrypted
    decryptedSupplyData := fun _ => emptyDecrypted
    encryptedMineralStats := fun _ => none
    mineralTypeList := []
    requestToDataId := fun _ => 0 }

/-- The revert reasons of the contract, in the error vocabulary of the spec:
alreadyAnalyzed is the revert string "Already analyzed", invalidRequest
is "Invalid request" (the spec calls it UnknownRequest), invalidProof is
a failure of FHE.checkSignatures, mineralTypeNotFound is "Mineral type
not found", malformedPayload is a failing abi.decode. -/
inductive CErr where
  | alreadyAnalyzed
  | invalidRequest
  | invalidProof
  | mineralTypeNotFound
  | malformedPayload
deriving DecidableEq

/-- An oracle cleartext payload: either the abi encoding of a
(string, uint256, string) triple or of a single numeric value. -/
inductive Cleartexts where
  | triple (mineralType : String) (quantity : Nat) (origin : String)
  | single (n : Nat)
deriving DecidableEq

/-- abi.decode of the payload as (string, uint256, string). -/
def decodeTriple : Cleartexts → Option (String × Nat × String)
  | .triple m q o => some (m, q, o)
  | .single _ => none

/-- abi.decode of the payload as (uint32). -/
def decodeUint32 : Cleartexts → Option Nat
  | .single n => some n
  | .triple _ _ _ => none

/-- submitEncryptedSupplyData: increments dataCount, stores the three
ciphertexts under the new id together with the timestamp, stores the
empty unresolved DecryptedSupplyData under the same id, and emits
DataSubmitted(newId, timestamp); the emitted id is returned alongside
the new state. Never reverts. -/
def submitEncryptedSupplyData (cm cq co : EUint32) (ts : Nat)
    (s : ContractState) : ContractState × Nat :=
  let newId := s.dataCount + 1
  ({ s with
      dataCount := newId
      encryptedSupplyData := fun k =>
        if k = newId then
          { id := newId, encryptedMineralType := cm, encryptedQuantity := cq,
            encryptedOrigin := co, timestamp := ts }
        else s.encryptedSupplyData k
      decryptedSupplyData := fun k =>
        if k = newId then emptyDecrypted else s.decryptedSupplyData k },
   newId)

/-- requestSupplyAnalysis: reverts with "Already analyzed" when the
entry is analyzed, otherwise asks the oracle to decrypt the three
ciphertexts (the oracle assigns reqId) and records reqId -> dataId. -/
def requestSupplyAnalysis (dataId reqId : Nat) (s : ContractState) :
    Except CErr ContractState :=
  if (s.decryptedSupplyData dataId).isAnalyzed then .error .alreadyAnalyzed
  else .ok { s with
    requestToDataId := fun k => if k = reqId then dataId else s.requestToDataId k }

/-- The successful-path state change of analyzeSupplyChain at target
dataId with decoded plaintexts (mt, q, og): store the analyzed row,
lazily create the per-category counter and catalog entry, and
homomorphically add encrypted one to the counter. -/
def applyResolve (dataId : Nat) (mt : String) (q : Nat) (og : String)
    (s : ContractState) : ContractState :=
  let s1 := { s with
    decryptedSupplyData := fun k =>
      if k = dataId then
        { mineralType := mt, quantity := q, origin := og, isAnalyzed := true }
      else s.decryptedSupplyData k }
  let s2 :=
    if FHE.isInit (s1.encryptedMineralStats mt) then s1
    else { s1 with
      encryptedMineralStats := fun c =>
        if c = mt then FHE.asEuint32 0 else s1.encryptedMineralStats c
      mineralTypeList := s1.mineralTypeList ++ [mt] }
  { s2 with
    encryptedMineralStats := fun c =>
      if c = mt then FHE.add (s2.encryptedMineralStats mt) (FHE.asEuint32 1)
      else s2.encryptedMineralStats c }

/-- analyzeSupplyChain: the disclosure-resolution callback. Looks up the
target id of the request token (reverting with "Invalid request" when
the token maps to 0), reverts with "Already analyzed" when the target is
already resolved, then checks the oracle signatures (proofOk), decodes
the payload and applies the resolution. The token is NOT removed from
requestToDataId. -/
def analyzeSupplyChain (requestId : Nat) (cleartexts : Cleartexts)
    (proofOk : Bool) (s : ContractState) : Except CErr ContractState :=
  let dataId := s.requestToDataId requestId
  if dataId = 0 then .error .invalidRequest
  else if (s.decryptedSupplyData dataId).isAnalyzed then .error .alreadyAnalyzed
  else if proofOk = false then .error .invalidProof
  else
    match decodeTriple cleartexts with
    | none => .error .malformedPayload
    | some (mt, q, og) => .ok (applyResolve dataId mt q og s)

/-- getDecryptedSupplyData: a view returning the stored (possibly
default) DecryptedSupplyData row; total, never reverts. -/
def getDecryptedSupplyData (dataId : Nat) (s : ContractState) :
    DecryptedSupplyData :=
  s.decryptedSupplyData dataId

/-- getEncryptedMineralStats: a view returning the per-category counter
handle. -/
def getEncryptedMineralStats (mineralType : String) (s : ContractState) :
    EUint32 :=
  s.encryptedMineralStats mineralType

/-- requestMineralStatsDecryption: reverts with "Mineral type not found"
when the counter is uninitialized, otherwise requests decryption of the
counter and records reqId -> uint256(keccak256(mineralType)) in the SAME
table used for disclosure targets. -/
def requestMineralStatsDecryption (hashFn : String → Nat)
    (mineralType : String) (reqId : Nat) (s : ContractState) :
    Except CErr ContractState :=
  if FHE.isInit (s.encryptedMineralStats mineralType) = false then
    .error .mineralTypeNotFound
  else .ok { s with
    requestToDataId := fun k =>
      if k = reqId then hashFn mineralType else s.requestToDataId k }

/-- getMineralTypeFromHash: scans the catalog for an entry whose
fingerprint equals the given hash; none models the revert
"Mineral type not found". -/
def getMineralTypeFromHash (hashFn : String → Nat) :
    List String → Nat → Option String
  | [], _ => none
  | c :: rest, h =>
    if hashFn c = h then some c else getMineralTypeFromHash hashFn rest h

/-- decryptMineralStats: the aggregate-decryption callback. Reverse-
looks-up the category from the stored hash (reverting when absent),
checks the oracle signatures, decodes the payload as uint32 and then
discards it: the state is returned unchanged and the token stays
registered. -/
def decryptMineralStats (hashFn : String → Nat) (requestId : Nat)
    (cleartexts : Cleartexts) (proofOk : Bool) (s : ContractState) :
    Except CErr ContractState :=
  let mineralHash := s.requestToDataId requestId
  match getMineralTypeFromHash hashFn s.mineralTypeList mineralHash with
  | none => .error .mineralTypeNotFound
  | some _ =>
    if proofOk = false then .error .invalidProof
    else
      match decodeUint32 cleartexts with
      | none => .error .malformedPayload
      | some _ => .ok s

/-- Whether row i matches the queried mineral type in
calculateSupplyRisk: analyzed and equal keccak fingerprints. -/
def matchesMineral (hashFn : String → Nat) (mineralType : String)
    (s : ContractState) (i : Nat) : Bool :=
  (s.decryptedSupplyData i).isAnalyzed &&
    (hashFn (s.decryptedSupplyData i).mineralType == hashFn mineralType)

/-- Whether the origin of row i fingerprints equal to some high-risk region
in calculateSupplyRisk. -/
def inHighRisk (hashFn : String → Nat) (highRiskRegions : List String)
    (s : ContractState) (i : Nat) : Bool :=
  highRiskRegions.any (fun r => hashFn (s.decryptedSupplyData i).origin == hashFn r)

/-- One iteration of the calculateSupplyRisk loop: the accumulator is
(totalQuantity, highRiskQuantity). -/
def riskAccum (hashFn : String → Nat) (mineralType : String)
    (highRiskRegions : List String) (s : ContractState)
    (acc : Nat × Nat) (i : Nat) : Nat × Nat :=
  if matchesMineral hashFn mineralType s i then
    (acc.1 + (s.decryptedSupplyData i).quantity,
     if inHighRisk hashFn highRiskRegions s i then
       acc.2 + (s.decryptedSupplyData i).quantity
     else acc.2)
  else acc

/-- calculateSupplyRisk: scans rows 1..dataCount and returns
highRiskQuantity * 100 / totalQuantity, or 0 when totalQuantity is 0. -/
def calculateSupplyRisk (hashFn : String → Nat) (mineralType : String)
    (highRiskRegions : List String) (s : ContractState) : Nat :=
  let p := ((List.range s.dataCount).map (· + 1)).foldl
    (riskAccum hashFn mineralType highRiskRegions s) (0, 0)
  if p.1 > 0 then p.2 * 100 / p.1 else 0

/-- Revert semantics of one transaction: an error leaves the state as it
was. -/
def stepOk (r : Except CErr ContractState) (s : ContractState) :
    ContractState :=
  match r with
  | .ok s1 => s1
  | .error _ => s

/-- Runs one operation with revert semantics, returning the resulting
state together with the revert reason, if any. -/
def runC (f : ContractState → Except CErr ContractState)
    (s : ContractState) : ContractState × Option CErr :=
  match f s with
  | .ok s1 => (s1, none)
  | .error e => (s, some e)

/-- Whether an operation succeeded. -/
def okB : Except CErr ContractState → Bool
  | .ok _ => true
  | .error _ => false

/-- The revert reason of an operation, if it reverted. -/
def errOf : Except CErr ContractState → Option CErr
  | .ok _ => none
  | .error e => some e

/-- A labelled externally callable operation of the contract, with the
oracle-produced inputs (request ids, payloads, signature verdicts) as
label data. -/
inductive COp where
  | submit (cm cq co : EUint32) (ts : Nat)
  | reqAnalysis (dataId reqId : Nat)
  | analyze (requestId : Nat) (cleartexts : Cleartexts) (proofOk : Bool)
  | reqStats (mineralType : String) (reqId : Nat)
  | decStats (requestId : Nat) (cleartexts : Cleartexts) (proofOk : Bool)

/-- Dispatches one operation to the contract function it names. -/
def applyOp (hashFn : String → Nat) (s : ContractState) :
    COp → Except CErr ContractState
  | .submit cm cq co ts => .ok (submitEncryptedSupplyData cm cq co ts s).1
  | .reqAnalysis dataId reqId => requestSupplyAnalysis dataId reqId s
  | .analyze requestId ct p => analyzeSupplyChain requestId ct p s
  | .reqStats mt reqId => requestMineralStatsDecryption hashFn mt reqId s
  | .decStats requestId ct p => decryptMineralStats hashFn requestId ct p s

/-- Runs a sequence of operations with revert semantics. A state is
reachable iff it is runOps hashFn initState ops for some ops. -/
def runOps (hashFn : String → Nat) : ContractState → List COp → ContractState
  | s, [] => s
  | s, op :: rest => runOps hashFn (stepOk (applyOp hashFn s op) s) rest

/-- The categories of the disclosures resolved by one operation: the
decoded category when the operation is a successful analyzeSupplyChain
callback, nothing otherwise. -/
def opResolved (s : ContractState) : COp → List String
  | .analyze requestId ct p =>
    match analyzeSupplyChain requestId ct p s, decodeTriple ct with
    | .ok _, some (mt, _, _) => [mt]
    | _, _ => []
  | _ => []

/-- The categories of all disclosures resolved along a run, in
chronological order. -/
def runResolved (hashFn : String → Nat) : ContractState → List COp → List String
  | _, [] => []
  | s, op :: rest =>
    opResolved s op ++
      runResolved hashFn (stepOk (applyOp hashFn s op) s) rest

/-- A concrete injective-in-practice fingerprint for strings, used to
instantiate hashFn in concrete runs (an idealization of keccak256 over
the packed string). -/
def strCode (s : String) : Nat :=
  s.data.foldl (fun acc c => acc * 1114112 + c.toNat + 1) 0

/-- A run that submits one disclosure and requests its analysis with
oracle token 5. -/
def c1Pre : ContractState := runOps strCode initState
  [ .submit (FHE.asEuint32 1) (FHE.asEuint32 10) (FHE.asEuint32 2) 0,
    .reqAnalysis 1 5 ]

/-- c1Pre after a first, successful fulfill of token 5. -/
def c1Post : ContractState :=
  stepOk (analyzeSupplyChain 5 (.triple "Cobalt" 7 "CD") true c1Pre) c1Pre

/-- A run that submits one disclosure and requests its analysis with
oracle token 9 (the token is pending, the entry unresolved). -/
def c2aState : ContractState := runOps strCode initState
  [ .submit (FHE.asEuint32 1) (FHE.asEuint32 10) (FHE.asEuint32 2) 0,
    .reqAnalysis 1 9 ]

/-- The end-to-end example run of the spec: three disclosures of
categories Lithium, Cobalt, Lithium resolved with quantities 10, 20, 30
and origins A, B, A. -/
def exOps : List COp :=
  [ .submit (FHE.asEuint32 1) (FHE.asEuint32 10) (FHE.asEuint32 2) 100,
    .submit (FHE.asEuint32 3) (FHE.asEuint32 20) (FHE.asEuint32 4) 200,
    .submit (FHE.asEuint32 5) (FHE.asEuint32 30) (FHE.asEuint32 6) 300,
    .reqAnalysis 1 101, .reqAnalysis 2 102, .reqAnalysis 3 103,
    .analyze 101 (.triple "Lithium" 10 "A") true,
    .analyze 102 (.triple "Cobalt" 20 "B") true,
    .analyze 103 (.triple "Lithium" 30 "A") true ]

/-- The state reached by the end-to-end example run. -/
def exState : ContractState := runOps strCode initState exOps

/-- exState extended with an aggregate-decryption request for Cobalt
under oracle token 55. -/
def c2bState : ContractState :=
  stepOk (requestMineralStatsDecryption strCode "Cobalt" 55 exState) exState

/-- One submit call: the smallest run with an assigned id. -/
def c9Ops : List COp :=
  [ .submit (FHE.asEuint32 1) (FHE.asEuint32 2) (FHE.asEuint32 3) 0 ]

/-- One submitted disclosure: the smallest state with an assigned id. -/
def c9State : ContractState := runOps strCode initState c9Ops

/-- A fingerprint function under which category "A" has fingerprint 1:
the collision scenario the request table does nothing to rule out. -/
def hash4 : String → Nat := fun s => if s = "A" then 1 else strCode s + 2

/-- Submit disclosure 1, register disclosure token 10 for it, resolve it
with category "A", then register aggregate token 11 for "A": both table
entries now hold the value 1. -/
def c4Ops : List COp :=
  [ .submit (FHE.asEuint32 1) (FHE.asEuint32 5) (FHE.asEuint32 2) 0,
    .reqAnalysis 1 10,
    .analyze 10 (.triple "A" 5 "X") true,
    .reqStats "A" 11 ]

/-- The state reached by c4Ops under hash4. -/
def c4State : ContractState := runOps hash4 initState c4Ops

/-- A state all of whose unresolved rows are exactly the empty
placeholder. -/
def UnresolvedRow (s : ContractState) : Prop :=
  ∀ i, (s.decryptedSupplyData i).isAnalyzed = false →
    s.decryptedSupplyData i = emptyDecrypted

/-- The caller-supplied arguments of one submitEncryptedSupplyData
call: three ciphertext handles and the block timestamp. -/
structure SubmitArgs where
  cm : EUint32
  cq : EUint32
  co : EUint32
  ts : Nat

/-- Runs a sequence of submitEncryptedSupplyData calls, collecting the
emitted ids in call order. -/
def submitSeq : List SubmitArgs → ContractState → ContractState × List Nat
  | [], s => (s, [])
  | a :: rest, s =>
    let r := submitEncryptedSupplyData a.cm a.cq a.co a.ts s
    let t := submitSeq rest r.1
    (t.1, r.2 :: t.2)

/-- The EncryptedSupplyData entry that submit stores under newId. -/
def storedEntry (newId : Nat) (a : SubmitArgs) : EncryptedSupplyData :=
  { id := newId, encryptedMineralType := a.cm, encryptedQuantity := a.cq,
    encryptedOrigin := a.co, timestamp := a.ts }

/-- Two concrete submit calls. -/
def wInputs : List SubmitArgs :=
  [ { cm := some 1, cq := some 2, co := some 3, ts := 4 },
    { cm := none, cq := none, co := none, ts := 5 } ]

/-- The catalog/counter invariant, relative to the chronological list
cats of categories of resolved disclosures: the catalog has no
duplicates, a category is cataloged iff some resolution named it, and
the counter of each cataloged category is exactly the encryption of the
number of resolutions that named it (uninitialized otherwise). -/
def CatInv (s : ContractState) (cats : List String) : Prop :=
  s.mineralTypeList.Nodup ∧
  (∀ c, c ∈ s.mineralTypeList ↔ c ∈ cats) ∧
  (∀ c, s.encryptedMineralStats c =
    if c ∈ s.mineralTypeList then FHE.asEuint32 (cats.count c) else none)

/-- Sum of the quantities of the rows of l that are analyzed and
fingerprint-match the queried mineral type. -/
def analyzedMatchQty (hashFn : String → Nat) (mineralType : String)
    (s : ContractState) (l : List Nat) : Nat :=
  ((l.filter (matchesMineral hashFn mineralType s)).map
    (fun i => (s.decryptedSupplyData i).quantity)).sum

/-- Sum of the quantities of the rows of l that are analyzed,
fingerprint-match the queried mineral type and have a high-risk
origin. -/
def analyzedMatchHighRiskQty (hashFn : String → Nat) (mineralType : String)
    (highRiskRegions : List String) (s : ContractState) (l : List Nat) : Nat :=
  ((l.filter (fun i => matchesMineral hashFn mineralType s i &&
      inHighRisk hashFn highRiskRegions s i)).map
    (fun i => (s.decryptedSupplyData i).quantity)).sum

/-- The spec-level total: sum of quantities of all resolved disclosures
of the queried mineral, over ids 1..dataCount. -/
def totalQuantityFor (hashFn : String → Nat) (mineralType : String)
    (s : ContractState) : Nat :=
  analyzedMatchQty hashFn mineralType s ((List.range s.dataCount).map (· + 1))

/-- The spec-level high-risk part: sum of quantities of the resolved
disclosures of the queried mineral whose origin lies in the high-risk
set, over ids 1..dataCount. -/
def highRiskQuantityFor (hashFn : String → Nat) (mineralType : String)
    (highRiskRegions : List String) (s : ContractState) : Nat :=
  analyzedMatchHighRiskQty hashFn mineralType highRiskRegions s
    ((List.range s.dataCount).map (· + 1))

/-! Theorems: supporting lemmas and the claim theorems. -/

theorem FHE.add_asEuint32 (a b : Nat) :
    FHE.add (FHE.asEuint32 a) (FHE.asEuint32 b) = FHE.asEuint32 (a + b) := by
  simp [FHE.add, FHE.asEuint32, Nat.add_mod]

theorem FHE.isInit_asEuint32 (n : Nat) : FHE.isInit (FHE.asEuint32 n) = true := rfl

theorem applyResolve_requestToDataId (dataId : Nat) (mt : String) (q : Nat)
    (og : String) (s : ContractState) :
    (applyResolve dataId mt q og s).requestToDataId = s.requestToDataId := by
  unfold applyResolve
  by_cases h : FHE.isInit (s.encryptedMineralStats mt) = true <;> simp [h]

theorem applyResolve_dataCount (dataId : Nat) (mt : String) (q : Nat)
    (og : String) (s : ContractState) :
    (applyResolve dataId mt q og s).dataCount = s.dataCount := by
  unfold applyResolve
  by_cases h : FHE.isInit (s.encryptedMineralStats mt) = true <;> simp [h]

theorem applyResolve_encrypted (dataId : Nat) (mt : String) (q : Nat)
    (og : String) (s : ContractState) :
    (applyResolve dataId mt q og s).encryptedSupplyData = s.encryptedSupplyData := by
  unfold applyResolve
  by_cases h : FHE.isInit (s.encryptedMineralStats mt) = true <;> simp [h]

theorem applyResolve_decrypted (dataId : Nat) (mt : String) (q : Nat)
    (og : String) (s : ContractState) (k : Nat) :
    (applyResolve dataId mt q og s).decryptedSupplyData k =
      if k = dataId then
        { mineralType := mt, quantity := q, origin := og, isAnalyzed := true }
      else s.decryptedSupplyData k := by
  unfold applyResolve
  by_cases h : FHE.isInit (s.encryptedMineralStats mt) = true <;> simp [h]

theorem applyResolve_list (dataId : Nat) (mt : String) (q : Nat)
    (og : String) (s : ContractState) :
    (applyResolve dataId mt q og s).mineralTypeList =
      if FHE.isInit (s.encryptedMineralStats mt) then s.mineralTypeList
      else s.mineralTypeList ++ [mt] := by
  unfold applyResolve
  by_cases h : FHE.isInit (s.encryptedMineralStats mt) = true <;> simp [h]

theorem applyResolve_stats (dataId : Nat) (mt : String) (q : Nat)
    (og : String) (s : ContractState) (c : String) :
    (applyResolve dataId mt q og s).encryptedMineralStats c =
      if c = mt then
        FHE.add
          (if FHE.isInit (s.encryptedMineralStats mt) then
            s.encryptedMineralStats mt
          else FHE.asEuint32 0)
          (FHE.asEuint32 1)
      else s.encryptedMineralStats c := by
  unfold applyResolve
  by_cases h : FHE.isInit (s.encryptedMineralStats mt) = true
  · simp [h]
  · simp only [h, if_false, Bool.false_eq_true]
    by_cases hc : c = mt <;> simp [h, hc]

theorem analyze_ok_elim {rq : Nat} {ct : Cleartexts} {p : Bool}
    {s s' : ContractState} (h : analyzeSupplyChain rq ct p s = .ok s') :
    s.requestToDataId rq ≠ 0 ∧
    (s.decryptedSupplyData (s.requestToDataId rq)).isAnalyzed = false ∧
    p = true ∧
    ∃ mt q og, decodeTriple ct = some (mt, q, og) ∧
      s' = applyResolve (s.requestToDataId rq) mt q og s := by
  unfold analyzeSupplyChain at h
  by_cases h0 : s.requestToDataId rq = 0
  · simp [h0] at h
  · by_cases h1 : (s.decryptedSupplyData (s.requestToDataId rq)).isAnalyzed = true
    · simp [h0, h1] at h
    · cases p with
      | false => simp [h0, h1] at h
      | true =>
        cases hdec : decodeTriple ct with
        | none => simp [h0, h1, hdec] at h
        | some trip =>
          obtain ⟨mt, q, og⟩ := trip
          simp [h0, h1, hdec] at h
          exact ⟨h0, by simpa using h1, rfl, mt, q, og, rfl, h.symm⟩

theorem runC_eq_error {f : ContractState → Except CErr ContractState}
    {s : ContractState} {e : CErr} (h : f s = .error e) :
    runC f s = (s, some e) := by
  unfold runC
  rw [h]

theorem runC_eq_ok {f : ContractState → Except CErr ContractState}
    {s t : ContractState} (h : f s = .ok t) :
    runC f s = (t, none) := by
  unfold runC
  rw [h]

theorem stepOk_reqAnalysis_fields (d r : Nat) (s : ContractState) :
    ((stepOk (requestSupplyAnalysis d r s) s).mineralTypeList = s.mineralTypeList) ∧
    ((stepOk (requestSupplyAnalysis d r s) s).encryptedMineralStats = s.encryptedMineralStats) ∧
    ((stepOk (requestSupplyAnalysis d r s) s).decryptedSupplyData = s.decryptedSupplyData) ∧
    ((stepOk (requestSupplyAnalysis d r s) s).dataCount = s.dataCount) := by
  unfold requestSupplyAnalysis stepOk
  by_cases h : (s.decryptedSupplyData d).isAnalyzed = true <;> simp [h]

theorem stepOk_reqStats_fields (hashFn : String → Nat) (mt : String) (r : Nat)
    (s : ContractState) :
    ((stepOk (requestMineralStatsDecryption hashFn mt r s) s).mineralTypeList = s.mineralTypeList) ∧
    ((stepOk (requestMineralStatsDecryption hashFn mt r s) s).encryptedMineralStats = s.encryptedMineralStats) ∧
    ((stepOk (requestMineralStatsDecryption hashFn mt r s) s).decryptedSupplyData = s.decryptedSupplyData) ∧
    ((stepOk (requestMineralStatsDecryption hashFn mt r s) s).dataCount = s.dataCount) := by
  unfold requestMineralStatsDecryption stepOk
  by_cases h : FHE.isInit (s.encryptedMineralStats mt) = false <;> simp [h]

theorem stepOk_decStats_eq (hashFn : String → Nat) (rq : Nat) (ct : Cleartexts)
    (p : Bool) (s : ContractState) :
    stepOk (decryptMineralStats hashFn rq ct p s) s = s := by
  unfold decryptMineralStats stepOk
  cases hm : getMineralTypeFromHash hashFn s.mineralTypeList (s.requestToDataId rq) with
  | none => simp [hm]
  | some mt =>
    cases p with
    | false => simp [hm]
    | true => cases hd : decodeUint32 ct <;> simp [hm, hd]

/-- Claim C1, counterexample to the claim as stated: after submitting
one disclosure, requesting analysis (token 5) and fulfilling once
successfully (fields populated with Cobalt/7/CD), a second fulfill with
the same token 5 reverts with "Already analyzed" — not with
"Invalid request"/UnknownRequest — and the consumed token 5 is STILL
registered (requestToDataId 5 = 1): analyzeSupplyChain never deletes
the requestToDataId entry. -/
theorem replay_fulfill_not_unknown_request :
    errOf (analyzeSupplyChain 5 (.triple "Cobalt" 7 "CD") true c1Post) =
      some CErr.alreadyAnalyzed ∧
    some CErr.alreadyAnalyzed ≠ some CErr.invalidRequest ∧
    c1Post.requestToDataId 5 = 1 ∧
    getDecryptedSupplyData 1 c1Post =
      { mineralType := "Cobalt", quantity := 7, origin := "CD", isAnalyzed := true } := by
  decide

/-- Claim C1 (amended): after a successful fulfill for a token that
targets a disclosure id, any second fulfill with the same token reverts
with AlreadyAnalyzed (the token remains registered; the entry it targets
is resolved) and leaves the whole contract state — in particular the
RevealedDisclosure fields category, quantity, origin, resolved for that
id — unchanged. -/
theorem replay_fulfill_alreadyAnalyzed (rq : Nat) (ct : Cleartexts) (p : Bool)
    (ct2 : Cleartexts) (p2 : Bool) (s s' : ContractState)
    (h : analyzeSupplyChain rq ct p s = .ok s') :
    runC (analyzeSupplyChain rq ct2 p2) s' = (s', some CErr.alreadyAnalyzed) := by
  obtain ⟨h0, h1, hp, mt, q, og, hdec, hs⟩ := analyze_ok_elim h
  have hreq : s'.requestToDataId rq = s.requestToDataId rq := by
    rw [hs, applyResolve_requestToDataId]
  have hrow : (s'.decryptedSupplyData (s.requestToDataId rq)).isAnalyzed = true := by
    rw [hs, applyResolve_decrypted]
    simp
  apply runC_eq_error
  unfold analyzeSupplyChain
  simp [hreq, hrow, h0]

/-- Claim C1, witness: the amended theorem applied to the concrete
replay scenario. -/
theorem replay_fulfill_alreadyAnalyzed_witness :
    runC (analyzeSupplyChain 5 (.triple "X" 1 "Y") false) c1Post =
      (c1Post, some CErr.alreadyAnalyzed) :=
  replay_fulfill_alreadyAnalyzed 5 (.triple "Cobalt" 7 "CD") true
    (.triple "X" 1 "Y") false c1Pre c1Post rfl

/-- Claim C2: a fulfill whose oracle authenticity check fails mutates no
contract state whatsoever — for both callback entry points and for
every token and payload (including payloads that decode validly, since
no decode hypothesis is needed), the post-state is the pre-state; and
whenever execution reaches the authenticity check (the preceding
registration guards pass), the revert reason is exactly InvalidProof. -/
theorem invalid_proof_rejected_no_mutation (hashFn : String → Nat) (rq : Nat)
    (ct : Cleartexts) (s : ContractState) :
    ((runC (analyzeSupplyChain rq ct false) s).1 = s) ∧
    ((runC (decryptMineralStats hashFn rq ct false) s).1 = s) ∧
    (s.requestToDataId rq ≠ 0 →
      (s.decryptedSupplyData (s.requestToDataId rq)).isAnalyzed = false →
      runC (analyzeSupplyChain rq ct false) s = (s, some CErr.invalidProof)) ∧
    (∀ mt, getMineralTypeFromHash hashFn s.mineralTypeList (s.requestToDataId rq) = some mt →
      runC (decryptMineralStats hashFn rq ct false) s = (s, some CErr.invalidProof)) := by
  refine ⟨?_, ?_, ?_, ?_⟩
  · unfold runC
    cases hcall : analyzeSupplyChain rq ct false s with
    | ok t =>
      have := (analyze_ok_elim hcall).2.2.1
      simp at this
    | error e => rfl
  · unfold runC decryptMineralStats
    cases hm : getMineralTypeFromHash hashFn s.mineralTypeList (s.requestToDataId rq) <;>
      simp [hm]
  · intro h0 h1
    apply runC_eq_error
    unfold analyzeSupplyChain
    simp [h0, h1]
  · intro mt hm
    apply runC_eq_error
    unfold decryptMineralStats
    simp [hm]

/-- Claim C2, witness: a pending disclosure token (9) and a pending
aggregate token (55) are both rejected with InvalidProof and leave the
state unchanged when the authenticity check fails. -/
theorem invalid_proof_rejected_no_mutation_witness :
    runC (analyzeSupplyChain 9 (.triple "Zinc" 4 "Q") false) c2aState =
      (c2aState, some CErr.invalidProof) ∧
    runC (decryptMineralStats strCode 55 (.single 3) false) c2bState =
      (c2bState, some CErr.invalidProof) :=
  ⟨(invalid_proof_rejected_no_mutation strCode 9 (.triple "Zinc" 4 "Q") c2aState).2.2.1
      (by decide) (by decide),
   (invalid_proof_rejected_no_mutation strCode 55 (.single 3) c2bState).2.2.2
      "Cobalt" (by decide)⟩

/-- Claim C3, counterexample to the claim as stated: on the freshly
deployed contract no disclosure exists (dataCount = 0), yet
requestSupplyAnalysis for the never-assigned id 99 SUCCEEDS and
registers pending token 7 -> 99: the code checks only that the entry is
not yet analyzed, never that the id was assigned. -/
theorem request_analysis_unassigned_id_succeeds :
    initState.dataCount = 0 ∧
    okB (requestSupplyAnalysis 99 7 initState) = true ∧
    (stepOk (requestSupplyAnalysis 99 7 initState) initState).requestToDataId 7 = 99 := by
  decide

/-- Claim C3 (amended): requestSupplyAnalysis fails — with
AlreadyAnalyzed, registering no new token — exactly when the RevealedDisclosure
of the id is already resolved; for every other id, including
ids that were never assigned, it succeeds and registers the token
against that id. -/
theorem request_analysis_guard (dataId reqId : Nat) (s : ContractState) :
    ((s.decryptedSupplyData dataId).isAnalyzed = true →
      runC (requestSupplyAnalysis dataId reqId) s = (s, some CErr.alreadyAnalyzed)) ∧
    ((s.decryptedSupplyData dataId).isAnalyzed = false →
      requestSupplyAnalysis dataId reqId s = .ok { s with
        requestToDataId := fun k => if k = reqId then dataId else s.requestToDataId k }) := by
  constructor
  · intro h
    apply runC_eq_error
    unfold requestSupplyAnalysis
    simp [h]
  · intro h
    unfold requestSupplyAnalysis
    simp [h]

/-- Claim C3, witness: the amended theorem applied to the resolved entry
of c1Post (fails, state unchanged) and to the never-assigned id 99 of
the fresh contract (succeeds and registers 7 -> 99). -/
theorem request_analysis_guard_witness :
    runC (requestSupplyAnalysis 1 77) c1Post = (c1Post, some CErr.alreadyAnalyzed) ∧
    requestSupplyAnalysis 99 7 initState = .ok { initState with
      requestToDataId := fun k => if k = 7 then 99 else initState.requestToDataId k } :=
  ⟨(request_analysis_guard 1 77 c1Post).1 (by decide),
   (request_analysis_guard 99 7 initState).2 (by decide)⟩

/-- Claim C10: for a registered aggregate-decryption token (one whose
stored target resolves through the fingerprint lookup over the catalog) and a
validly authenticated, validly decoding payload, decryptMineralStats
returns the EXACT pre-state: the decoded count is discarded, no ledger
entry, counter or catalog entry is touched, and the token stays
registered, so a repeated fulfill of the same token behaves
identically. -/
theorem aggregate_fulfill_is_noop (hashFn : String → Nat) (rq : Nat)
    (ct : Cleartexts) (n : Nat) (mt : String) (s : ContractState)
    (hreg : getMineralTypeFromHash hashFn s.mineralTypeList (s.requestToDataId rq) = some mt)
    (hdec : decodeUint32 ct = some n) :
    decryptMineralStats hashFn rq ct true s = .ok s := by
  unfold decryptMineralStats
  simp [hreg, hdec]

/-- Claim C10, witness: fulfilling the registered Cobalt aggregate
token 55 with a valid payload is a no-op on the concrete state. -/
theorem aggregate_fulfill_is_noop_witness :
    decryptMineralStats strCode 55 (.single 3) true c2bState = .ok c2bState :=
  aggregate_fulfill_is_noop strCode 55 (.single 3) 3 "Cobalt" c2bState (by decide) rfl

/-- Claim C4: the contract stores disclosure targets (small sequential
ids) and category targets (fingerprints of category names) untagged in
the one requestToDataId table, so the two target domains are NOT
guaranteed disjoint. In the reachable state c4State, the value 1 is
stored both as the disclosure target of token 10 and as the category
target of token 11; consequently the aggregate callback
decryptMineralStats ACCEPTS the disclosure token 10 (its stored
disclosure id 1 resolves through the category fingerprint lookup), and
the disclosure callback analyzeSupplyChain consumes the aggregate token
11 past its registration guard (treating the fingerprint 1 as
disclosure id 1). -/
theorem request_target_domains_overlap :
    c4State.requestToDataId 10 = 1 ∧
    c4State.requestToDataId 11 = 1 ∧
    okB (decryptMineralStats hash4 10 (.single 2) true c4State) = true ∧
    errOf (analyzeSupplyChain 11 (.triple "B" 9 "Y") true c4State) =
      some CErr.alreadyAnalyzed := by
  decide

theorem unresolvedRow_step (hashFn : String → Nat) (s : ContractState)
    (op : COp) (h : UnresolvedRow s) :
    UnresolvedRow (stepOk (applyOp hashFn s op) s) := by
  cases op with
  | submit cm cq co ts =>
    intro i
    show ((submitEncryptedSupplyData cm cq co ts s).1.decryptedSupplyData i).isAnalyzed = false →
      (submitEncryptedSupplyData cm cq co ts s).1.decryptedSupplyData i = emptyDecrypted
    have hrow : (submitEncryptedSupplyData cm cq co ts s).1.decryptedSupplyData i =
        if i = s.dataCount + 1 then emptyDecrypted else s.decryptedSupplyData i := rfl
    rw [hrow]
    by_cases hi : i = s.dataCount + 1
    · rw [if_pos hi]
      intro _
      rfl
    · rw [if_neg hi]
      exact h i
  | reqAnalysis d r =>
    intro i
    show ((stepOk (requestSupplyAnalysis d r s) s).decryptedSupplyData i).isAnalyzed = false →
      (stepOk (requestSupplyAnalysis d r s) s).decryptedSupplyData i = emptyDecrypted
    rw [(stepOk_reqAnalysis_fields d r s).2.2.1]
    exact h i
  | reqStats mt r =>
    intro i
    show ((stepOk (requestMineralStatsDecryption hashFn mt r s) s).decryptedSupplyData i).isAnalyzed = false →
      (stepOk (requestMineralStatsDecryption hashFn mt r s) s).decryptedSupplyData i = emptyDecrypted
    rw [(stepOk_reqStats_fields hashFn mt r s).2.2.1]
    exact h i
  | decStats rq ct p =>
    intro i
    show ((stepOk (decryptMineralStats hashFn rq ct p s) s).decryptedSupplyData i).isAnalyzed = false →
      (stepOk (decryptMineralStats hashFn rq ct p s) s).decryptedSupplyData i = emptyDecrypted
    rw [stepOk_decStats_eq]
    exact h i
  | analyze rq ct p =>
    cases hcall : analyzeSupplyChain rq ct p s with
    | error e =>
      have hst : stepOk (applyOp hashFn s (.analyze rq ct p)) s = s := by
        show stepOk (analyzeSupplyChain rq ct p s) s = s
        rw [hcall]
        rfl
      rw [hst]
      exact h
    | ok t =>
      obtain ⟨h0, h1, hp, mt, q, og, hdec, hs⟩ := analyze_ok_elim hcall
      have hst : stepOk (applyOp hashFn s (.analyze rq ct p)) s = t := by
        show stepOk (analyzeSupplyChain rq ct p s) s = t
        rw [hcall]
        rfl
      rw [hst, hs]
      intro i
      rw [applyResolve_decrypted]
      by_cases hi : i = s.requestToDataId rq
      · rw [if_pos hi]
        intro hfalse
        simp at hfalse
      · rw [if_neg hi]
        exact h i

theorem unresolvedRow_runOps (hashFn : String → Nat) :
    ∀ (ops : List COp) (s : ContractState), UnresolvedRow s →
      UnresolvedRow (runOps hashFn s ops)
  | [], _, h => h
  | op :: rest, s, h =>
    unresolvedRow_runOps hashFn rest (stepOk (applyOp hashFn s op) s)
      (unresolvedRow_step hashFn s op h)

/-- Claim C9, counterexample to the claim as stated: after one submit,
id 1 is assigned and unresolved while id 2 lies outside the assigned
range, yet getDecryptedSupplyData returns the SAME empty placeholder for
both — the returned value carries no distinct "not found"
indication for out-of-range ids. -/
theorem get_revealed_no_distinct_not_found :
    c9State.dataCount = 1 ∧
    getDecryptedSupplyData 1 c9State = emptyDecrypted ∧
    getDecryptedSupplyData 2 c9State = emptyDecrypted := by
  decide

/-- Claim C9 (amended): getDecryptedSupplyData is read-only and total —
it never fails, for any id in any reachable state — and whenever the
row of the id is not resolved (an assigned-but-unresolved id as well as any
id outside the assigned range) it returns the empty unresolved
placeholder (empty category, quantity 0, empty origin, resolved false);
no distinct not-found indication exists. -/
theorem get_revealed_total_placeholder (hashFn : String → Nat)
    (ops : List COp) (dataId : Nat) :
    (getDecryptedSupplyData dataId (runOps hashFn initState ops) =
      (runOps hashFn initState ops).decryptedSupplyData dataId) ∧
    (((runOps hashFn initState ops).decryptedSupplyData dataId).isAnalyzed = false →
      getDecryptedSupplyData dataId (runOps hashFn initState ops) = emptyDecrypted) :=
  ⟨rfl, fun h =>
    unresolvedRow_runOps hashFn ops initState (fun _ _ => rfl) dataId h⟩

/-- Claim C9, witness: the amended theorem applied to the out-of-range
id 2 of the one-submit state. -/
theorem get_revealed_total_placeholder_witness :
    ((runOps strCode initState c9Ops).decryptedSupplyData 2).isAnalyzed = false ∧
    getDecryptedSupplyData 2 (runOps strCode initState c9Ops) = emptyDecrypted :=
  ⟨by decide, (get_revealed_total_placeholder strCode c9Ops 2).2 (by decide)⟩

theorem submitSeq_spec (inputs : List SubmitArgs) :
    ∀ s : ContractState,
    (submitSeq inputs s).2 = List.range' (s.dataCount + 1) inputs.length ∧
    (submitSeq inputs s).1.dataCount = s.dataCount + inputs.length ∧
    (∀ k, k ≤ s.dataCount →
      (submitSeq inputs s).1.encryptedSupplyData k = s.encryptedSupplyData k ∧
      (submitSeq inputs s).1.decryptedSupplyData k = s.decryptedSupplyData k) ∧
    (∀ i, ∀ hi : i < inputs.length,
      (submitSeq inputs s).1.encryptedSupplyData (s.dataCount + i + 1) =
        storedEntry (s.dataCount + i + 1) (inputs.get ⟨i, hi⟩) ∧
      (submitSeq inputs s).1.decryptedSupplyData (s.dataCount + i + 1) = emptyDecrypted) := by
  induction inputs with
  | nil =>
    intro s
    exact ⟨rfl, by simp [submitSeq], fun k _ => ⟨rfl, rfl⟩,
      fun i hi => absurd hi (by simp)⟩
  | cons a rest ih =>
    intro s
    obtain ⟨ih1, ih2, ih3, ih4⟩ := ih (submitEncryptedSupplyData a.cm a.cq a.co a.ts s).1
    have hdc : (submitEncryptedSupplyData a.cm a.cq a.co a.ts s).1.dataCount =
        s.dataCount + 1 := rfl
    simp only [hdc] at ih1 ih2 ih3 ih4
    refine ⟨?_, ?_, ?_, ?_⟩
    · show (s.dataCount + 1) ::
        (submitSeq rest (submitEncryptedSupplyData a.cm a.cq a.co a.ts s).1).2 =
        List.range' (s.dataCount + 1) ((a :: rest).length)
      rw [List.length_cons, List.range'_succ, ih1]
    · show (submitSeq rest (submitEncryptedSupplyData a.cm a.cq a.co a.ts s).1).1.dataCount =
        s.dataCount + (a :: rest).length
      rw [ih2, List.length_cons]
      omega
    · intro k hk
      obtain ⟨e1, e2⟩ := ih3 k (by omega)
      have f1 : (submitEncryptedSupplyData a.cm a.cq a.co a.ts s).1.encryptedSupplyData k =
          if k = s.dataCount + 1 then storedEntry (s.dataCount + 1) a
          else s.encryptedSupplyData k := rfl
      have f2 : (submitEncryptedSupplyData a.cm a.cq a.co a.ts s).1.decryptedSupplyData k =
          if k = s.dataCount + 1 then emptyDecrypted
          else s.decryptedSupplyData k := rfl
      constructor
      · show (submitSeq rest (submitEncryptedSupplyData a.cm a.cq a.co a.ts s).1).1.encryptedSupplyData k =
          s.encryptedSupplyData k
        rw [e1, f1, if_neg (by omega)]
      · show (submitSeq rest (submitEncryptedSupplyData a.cm a.cq a.co a.ts s).1).1.decryptedSupplyData k =
          s.decryptedSupplyData k
        rw [e2, f2, if_neg (by omega)]
    · intro i hi
      cases i with
      | zero =>
        obtain ⟨e1, e2⟩ := ih3 (s.dataCount + 1) (by omega)
        have hpos : s.dataCount + 0 + 1 = s.dataCount + 1 := by omega
        rw [hpos]
        have f1 : (submitEncryptedSupplyData a.cm a.cq a.co a.ts s).1.encryptedSupplyData
            (s.dataCount + 1) = storedEntry (s.dataCount + 1) a := by
          show (if s.dataCount + 1 = s.dataCount + 1 then storedEntry (s.dataCount + 1) a
            else s.encryptedSupplyData (s.dataCount + 1)) = storedEntry (s.dataCount + 1) a
          rw [if_pos rfl]
        have f2 : (submitEncryptedSupplyData a.cm a.cq a.co a.ts s).1.decryptedSupplyData
            (s.dataCount + 1) = emptyDecrypted := by
          show (if s.dataCount + 1 = s.dataCount + 1 then emptyDecrypted
            else s.decryptedSupplyData (s.dataCount + 1)) = emptyDecrypted
          rw [if_pos rfl]
        constructor
        · show (submitSeq rest (submitEncryptedSupplyData a.cm a.cq a.co a.ts s).1).1.encryptedSupplyData
            (s.dataCount + 1) = storedEntry (s.dataCount + 1) ((a :: rest).get ⟨0, hi⟩)
          rw [e1, f1]
          rfl
        · show (submitSeq rest (submitEncryptedSupplyData a.cm a.cq a.co a.ts s).1).1.decryptedSupplyData
            (s.dataCount + 1) = emptyDecrypted
          rw [e2, f2]
      | succ j =>
        have hj : j < rest.length := by
          have := hi
          simp [List.length_cons] at this
          omega
        obtain ⟨e1, e2⟩ := ih4 j hj
        have hpos : s.dataCount + (j + 1) + 1 = s.dataCount + 1 + j + 1 := by omega
        rw [hpos]
        have hget : (a :: rest).get ⟨j + 1, hi⟩ = rest.get ⟨j, hj⟩ := rfl
        rw [hget]
        exact ⟨e1, e2⟩

/-- Claim C5: for every sequence of n submit calls starting from the
freshly deployed contract, submit never fails (it is a total function
into states), the emitted ids are exactly 1, 2, ..., n in call order
(List.range' 1 n), no id is reused or skipped, and the final state
stores, under each id i+1, the EncryptedSupplyData of the i-th call together
with the empty unresolved RevealedDisclosure row. -/
theorem submit_assigns_sequential_ids (inputs : List SubmitArgs) :
    (submitSeq inputs initState).2 = List.range' 1 inputs.length ∧
    (submitSeq inputs initState).1.dataCount = inputs.length ∧
    (∀ i, ∀ hi : i < inputs.length,
      (submitSeq inputs initState).1.encryptedSupplyData (i + 1) =
        storedEntry (i + 1) (inputs.get ⟨i, hi⟩) ∧
      (submitSeq inputs initState).1.decryptedSupplyData (i + 1) = emptyDecrypted) := by
  obtain ⟨h1, h2, _, h4⟩ := submitSeq_spec inputs initState
  have hz : initState.dataCount = 0 := rfl
  simp only [hz, Nat.zero_add] at h1 h2 h4
  exact ⟨h1, h2, h4⟩

/-- Claim C5, witness: the theorem applied to a concrete two-call
sequence: ids are [1, 2] and the row under id 1 is the empty
placeholder, with the stored ciphertexts under id 2. -/
theorem submit_assigns_sequential_ids_witness :
    0 < wInputs.length ∧
    (submitSeq wInputs initState).2 = List.range' 1 2 ∧
    (submitSeq wInputs initState).1.decryptedSupplyData 1 = emptyDecrypted :=
  ⟨by decide, (submit_assigns_sequential_ids wInputs).1,
    ((submit_assigns_sequential_ids wInputs).2.2 0 (by decide)).2⟩

theorem CatInv_congr {s t : ContractState} {cats : List String}
    (h1 : t.mineralTypeList = s.mineralTypeList)
    (h2 : t.encryptedMineralStats = s.encryptedMineralStats)
    (h : CatInv s cats) : CatInv t cats := by
  unfold CatInv at h ⊢
  rw [h1, h2]
  exact h

theorem count_append_singleton_self (cats : List String) (mt : String) :
    (cats ++ [mt]).count mt = cats.count mt + 1 := by
  simp [List.count_append]

theorem count_append_singleton_ne (cats : List String) {c mt : String}
    (hc : c ≠ mt) : (cats ++ [mt]).count c = cats.count c := by
  rw [List.count_append]
  have hz : List.count c [mt] = 0 :=
    List.count_eq_zero.2 (by simp [hc])
  rw [hz, Nat.add_zero]

theorem catInv_applyResolve {s : ContractState} {cats : List String}
    (h : CatInv s cats) (dataId : Nat) (mt : String) (q : Nat) (og : String) :
    CatInv (applyResolve dataId mt q og s) (cats ++ [mt]) := by
  obtain ⟨hnd, hmem, hstats⟩ := h
  by_cases hm : mt ∈ s.mineralTypeList
  · have hinit : FHE.isInit (s.encryptedMineralStats mt) = true := by
      rw [hstats mt, if_pos hm]
      rfl
    have hlist : (applyResolve dataId mt q og s).mineralTypeList = s.mineralTypeList := by
      rw [applyResolve_list, if_pos hinit]
    refine ⟨by rw [hlist]; exact hnd, ?_, ?_⟩
    · intro c
      rw [hlist]
      constructor
      · intro hc
        exact List.mem_append_left _ ((hmem c).1 hc)
      · intro hc
        rcases List.mem_append.1 hc with hc1 | hc2
        · exact (hmem c).2 hc1
        · rw [List.mem_singleton.1 hc2]
          exact hm
    · intro c
      rw [applyResolve_stats, hlist]
      by_cases hc : c = mt
      · subst hc
        rw [if_pos rfl, if_pos hinit, if_pos hm, hstats c, if_pos hm,
          FHE.add_asEuint32, count_append_singleton_self]
      · rw [if_neg hc, hstats c]
        by_cases hcl : c ∈ s.mineralTypeList
        · rw [if_pos hcl, if_pos hcl, count_append_singleton_ne cats hc]
        · rw [if_neg hcl, if_neg hcl]
  · have hinit : FHE.isInit (s.encryptedMineralStats mt) = false := by
      rw [hstats mt, if_neg hm]
      rfl
    have hinit' : ¬ (FHE.isInit (s.encryptedMineralStats mt) = true) := by
      rw [hinit]
      exact Bool.false_ne_true
    have hlist : (applyResolve dataId mt q og s).mineralTypeList =
        s.mineralTypeList ++ [mt] := by
      rw [applyResolve_list, if_neg hinit']
    have hmtcats : mt ∉ cats := fun hc => hm ((hmem mt).2 hc)
    refine ⟨?_, ?_, ?_⟩
    · rw [hlist]
      simp [List.nodup_append, hnd, hm]
    · intro c
      rw [hlist]
      simp only [List.mem_append, List.mem_singleton]
      constructor
      · rintro (hc | hc)
        · exact Or.inl ((hmem c).1 hc)
        · exact Or.inr hc
      · rintro (hc | hc)
        · exact Or.inl ((hmem c).2 hc)
        · exact Or.inr hc
    · intro c
      rw [applyResolve_stats, hlist]
      by_cases hc : c = mt
      · subst hc
        rw [if_pos rfl, if_neg hinit', if_pos (List.mem_append_right _ (by simp)),
          FHE.add_asEuint32, count_append_singleton_self,
          List.count_eq_zero.2 hmtcats]
      · rw [if_neg hc, hstats c]
        have hmemc : (c ∈ s.mineralTypeList ++ [mt]) ↔ c ∈ s.mineralTypeList := by
          simp [List.mem_append, hc]
        by_cases hcl : c ∈ s.mineralTypeList
        · rw [if_pos hcl, if_pos (hmemc.2 hcl), count_append_singleton_ne cats hc]
        · rw [if_neg hcl, if_neg (fun hh => hcl (hmemc.1 hh))]

theorem catInv_step (hashFn : String → Nat) (s : ContractState)
    (cats : List String) (op : COp) (h : CatInv s cats) :
    CatInv (stepOk (applyOp hashFn s op) s) (cats ++ opResolved s op) := by
  cases op with
  | submit cm cq co ts =>
    rw [show opResolved s (.submit cm cq co ts) = [] from rfl, List.append_nil]
    exact CatInv_congr rfl rfl h
  | reqAnalysis d r =>
    rw [show opResolved s (.reqAnalysis d r) = [] from rfl, List.append_nil]
    obtain ⟨f1, f2, _, _⟩ := stepOk_reqAnalysis_fields d r s
    exact CatInv_congr f1 f2 h
  | reqStats mt r =>
    rw [show opResolved s (.reqStats mt r) = [] from rfl, List.append_nil]
    obtain ⟨f1, f2, _, _⟩ := stepOk_reqStats_fields hashFn mt r s
    exact CatInv_congr f1 f2 h
  | decStats rq ct p =>
    rw [show opResolved s (.decStats rq ct p) = [] from rfl, List.append_nil]
    show CatInv (stepOk (decryptMineralStats hashFn rq ct p s) s) cats
    rw [stepOk_decStats_eq]
    exact h
  | analyze rq ct p =>
    cases hcall : analyzeSupplyChain rq ct p s with
    | error e =>
      have hres : opResolved s (.analyze rq ct p) = [] := by
        show (match analyzeSupplyChain rq ct p s, decodeTriple ct with
          | .ok _, some (mt, _, _) => [mt]
          | _, _ => []) = []
        rw [hcall]
      have hst : stepOk (applyOp hashFn s (.analyze rq ct p)) s = s := by
        show stepOk (analyzeSupplyChain rq ct p s) s = s
        rw [hcall]
        rfl
      rw [hres, List.append_nil, hst]
      exact h
    | ok t =>
      obtain ⟨h0, h1, hp, mt, q, og, hdec, hs⟩ := analyze_ok_elim hcall
      have hres : opResolved s (.analyze rq ct p) = [mt] := by
        show (match analyzeSupplyChain rq ct p s, decodeTriple ct with
          | .ok _, some (mt, _, _) => [mt]
          | _, _ => []) = [mt]
        rw [hcall, hdec]
      have hst : stepOk (applyOp hashFn s (.analyze rq ct p)) s = t := by
        show stepOk (analyzeSupplyChain rq ct p s) s = t
        rw [hcall]
        rfl
      rw [hres, hst, hs]
      exact catInv_applyResolve ⟨(h).1, h.2.1, h.2.2⟩ _ mt q og

theorem catInv_runOps (hashFn : String → Nat) :
    ∀ (ops : List COp) (s : ContractState) (cats : List String),
      CatInv s cats →
      CatInv (runOps hashFn s ops) (cats ++ runResolved hashFn s ops)
  | [], s, cats, h => by
    rw [show runResolved hashFn s ([] : List COp) = [] from rfl, List.append_nil]
    exact h
  | op :: rest, s, cats, h => by
    have ih := catInv_runOps hashFn rest (stepOk (applyOp hashFn s op) s)
      (cats ++ opResolved s op) (catInv_step hashFn s cats op h)
    show CatInv (runOps hashFn (stepOk (applyOp hashFn s op) s) rest) _
    rw [show runResolved hashFn s (op :: rest) =
      opResolved s op ++ runResolved hashFn (stepOk (applyOp hashFn s op) s) rest from rfl,
      ← List.append_assoc]
    exact ih

/-- Claim C6: in every reachable state, the category catalog contains
no duplicates, a category is cataloged exactly when at least one
resolved disclosure named it (so it is appended exactly once, on the
first resolution naming it), and the counter of each cataloged category
holds precisely the encryption of the number k of disclosures of that
category resolved so far — the counter is advanced by encrypted one per
resolution and is independent of the disclosed quantities. -/
theorem category_catalog_nodup_counter_counts (hashFn : String → Nat)
    (ops : List COp) :
    (runOps hashFn initState ops).mineralTypeList.Nodup ∧
    (∀ c, c ∈ (runOps hashFn initState ops).mineralTypeList ↔
      c ∈ runResolved hashFn initState ops) ∧
    (∀ c, (runOps hashFn initState ops).encryptedMineralStats c =
      if c ∈ (runOps hashFn initState ops).mineralTypeList then
        FHE.asEuint32 ((runResolved hashFn initState ops).count c)
      else none) := by
  have h0 : CatInv initState [] := by
    refine ⟨List.nodup_nil, fun c => ?_, fun c => ?_⟩
    · show c ∈ ([] : List String) ↔ c ∈ ([] : List String)
      exact Iff.rfl
    · show (none : EUint32) = if c ∈ ([] : List String) then _ else none
      simp
  have hmain := catInv_runOps hashFn ops initState [] h0
  rw [List.nil_append] at hmain
  exact hmain

theorem getMineralTypeFromHash_mem (hashFn : String → Nat) :
    ∀ (catalog : List String) (c : String), c ∈ catalog →
      (∀ c2 ∈ catalog, hashFn c2 = hashFn c → c2 = c) →
      getMineralTypeFromHash hashFn catalog (hashFn c) = some c
  | [], c, hc, _ => absurd hc (List.not_mem_nil c)
  | x :: rest, c, hc, hinj => by
    unfold getMineralTypeFromHash
    by_cases hx : hashFn x = hashFn c
    · rw [if_pos hx, hinj x (List.mem_cons_self x rest) hx]
    · rw [if_neg hx]
      have hc2 : c ∈ rest := by
        rcases List.mem_cons.1 hc with h1 | h1
        · exact absurd (by rw [h1]) hx
        · exact h1
      exact getMineralTypeFromHash_mem hashFn rest c hc2
        (fun c2 h2 => hinj c2 (List.mem_cons_of_mem x h2))

theorem getMineralTypeFromHash_none (hashFn : String → Nat) :
    ∀ (catalog : List String) (fp : Nat),
      (∀ c2 ∈ catalog, hashFn c2 ≠ fp) →
      getMineralTypeFromHash hashFn catalog fp = none
  | [], _, _ => rfl
  | x :: rest, fp, hno => by
    unfold getMineralTypeFromHash
    rw [if_neg (hno x (List.mem_cons_self x rest))]
    exact getMineralTypeFromHash_none hashFn rest fp
      (fun c2 h2 => hno c2 (List.mem_cons_of_mem x h2))

/-- Claim C7: fingerprint lookup round-trips over any catalog: for a
cataloged category c whose fingerprint collides with no other cataloged
entry (keccak256 idealized as collision-free), looking up the
fingerprint of c returns c itself; and for a fingerprint not derived from any
cataloged entry the lookup returns none (the
"Mineral type not found" revert). -/
theorem fingerprint_lookup_roundtrip (hashFn : String → Nat)
    (catalog : List String) (c : String) (fp : Nat) :
    (c ∈ catalog → (∀ c2 ∈ catalog, hashFn c2 = hashFn c → c2 = c) →
      getMineralTypeFromHash hashFn catalog (hashFn c) = some c) ∧
    ((∀ c2 ∈ catalog, hashFn c2 ≠ fp) →
      getMineralTypeFromHash hashFn catalog fp = none) :=
  ⟨fun hc hinj => getMineralTypeFromHash_mem hashFn catalog c hc hinj,
   fun hno => getMineralTypeFromHash_none hashFn catalog fp hno⟩

/-- Claim C7, witness: round-trip on the concrete two-entry catalog and
NotFound for the fingerprint 0 that no entry hashes to. -/
theorem fingerprint_lookup_roundtrip_witness :
    getMineralTypeFromHash strCode ["Cobalt", "Lithium"] (strCode "Lithium") =
      some "Lithium" ∧
    getMineralTypeFromHash strCode ["Cobalt", "Lithium"] 0 = none :=
  ⟨(fingerprint_lookup_roundtrip strCode ["Cobalt", "Lithium"] "Lithium" 0).1
      (by decide) (by decide),
   (fingerprint_lookup_roundtrip strCode ["Cobalt", "Lithium"] "Lithium" 0).2
      (by decide)⟩

theorem riskAccum_foldl (hashFn : String → Nat) (mt : String)
    (hr : List String) (s : ContractState) :
    ∀ (l : List Nat) (a : Nat × Nat),
      l.foldl (riskAccum hashFn mt hr s) a =
        (a.1 + analyzedMatchQty hashFn mt s l,
         a.2 + analyzedMatchHighRiskQty hashFn mt hr s l)
  | [], a => by
    simp [analyzedMatchQty, analyzedMatchHighRiskQty]
  | i :: rest, a => by
    rw [List.foldl_cons, riskAccum_foldl hashFn mt hr s rest _]
    unfold riskAccum analyzedMatchQty analyzedMatchHighRiskQty
    by_cases hm : matchesMineral hashFn mt s i = true
    · by_cases hr2 : inHighRisk hashFn hr s i = true
      · simp only [hm, hr2, if_true, List.filter_cons, Bool.and_self,
          List.map_cons, List.sum_cons, Prod.mk.injEq]
        constructor <;> omega
      · simp only [hm, hr2, if_true, if_false, List.filter_cons, Bool.and_false,
          Bool.false_eq_true, List.map_cons, List.sum_cons, Prod.mk.injEq,
          eq_false_of_ne_true hr2]
        exact ⟨by omega, trivial⟩
    · simp only [hm, if_false, List.filter_cons, Bool.false_and,
        Bool.false_eq_true, Prod.mk.injEq, eq_false_of_ne_true hm]

theorem calculateSupplyRisk_eq (hashFn : String → Nat) (mineralType : String)
    (highRiskRegions : List String) (s : ContractState) :
    calculateSupplyRisk hashFn mineralType highRiskRegions s =
      if totalQuantityFor hashFn mineralType s = 0 then 0
      else 100 * highRiskQuantityFor hashFn mineralType highRiskRegions s /
        totalQuantityFor hashFn mineralType s := by
  unfold calculateSupplyRisk totalQuantityFor highRiskQuantityFor
  rw [riskAccum_foldl]
  simp only [Nat.zero_add]
  by_cases h0 : analyzedMatchQty hashFn mineralType s
      ((List.range s.dataCount).map (· + 1)) = 0
  · simp [h0]
  · rw [if_neg h0, if_pos (Nat.pos_of_ne_zero h0), Nat.mul_comm]

/-- Claim C8: calculateSupplyRisk computes 100 times the summed
quantity of resolved disclosures of the queried mineral with high-risk
origin, integer-divided by the summed quantity of all resolved
disclosures of that mineral, and 0 when that total is 0; on the
concrete end-to-end run (Lithium 10 from A, Cobalt 20 from B, Lithium
30 from A) the query for Cobalt over the high-risk set containing B
yields 100 and for Lithium yields 0. -/
theorem supply_risk_formula_and_example :
    (∀ (hashFn : String → Nat) (mineralType : String)
      (highRiskRegions : List String) (s : ContractState),
      calculateSupplyRisk hashFn mineralType highRiskRegions s =
        if totalQuantityFor hashFn mineralType s = 0 then 0
        else 100 * highRiskQuantityFor hashFn mineralType highRiskRegions s /
          totalQuantityFor hashFn mineralType s) ∧
    calculateSupplyRisk strCode "Cobalt" ["B"] exState = 100 ∧
    calculateSupplyRisk strCode "Lithium" ["B"] exState = 0 :=
  ⟨fun hashFn mineralType highRiskRegions s =>
    calculateSupplyRisk_eq hashFn mineralType highRiskRegions s,
   by decide, by decide⟩
